import Mathlib

/-!
# Verification of the sanjuan-coordination realtime sync core

Shallow embedding of the Socket.IO server handlers (`board:update`,
`item:patch`, `lanes:move` in the server source) and of the client
reconciler handlers (`item:patch:apply`, `lanes:move:apply`, `deleteItem`
in `src/App.tsx`).  JS objects used as string-keyed maps are embedded as
association lists; `obj[k]` is `lookupL`, the spread update
`{...obj, [k]: v}` is `setL`, `delete obj[k]` is a key filter.  Partial
item objects (duck-typed payloads) are records of `Option` fields; the
JS falsy coercions `x || 0` and `mtime || Date.now()` are modelled
explicitly.  `Date.now()` is passed in as an explicit `now` argument.
-/

namespace SJ

/-- A (possibly partial) board item object: every field optional, `none`
modelling an absent key.  `BoardItem` in `App.tsx` has `id`, `source`,
`callsign`, `waypoint`, `estimate`, `altitude`, `mach`, `squawk`,
`routeWaypoints`; a `Partial<BoardItemFields>` patch is the same shape
with most keys absent. -/
structure Item where
  id : Option String := none
  source : Option String := none
  callsign : Option String := none
  waypoint : Option String := none
  estimate : Option String := none
  altitude : Option String := none
  mach : Option String := none
  squawk : Option String := none
  routeWaypoints : Option (List String) := none
deriving DecidableEq, Repr

/-- The empty JS object `{}` (also the result of spreading `undefined`). -/
def emptyItem : Item := {}

/-- Field-level choice: a key present in the patch overrides the base. -/
def ov {α : Type} (p b : Option α) : Option α :=
  match p with
  | some v => some v
  | none => b

/-- JS shallow merge `{ ...base, ...patch }` on item objects. -/
def mergeItem (base patch : Item) : Item :=
  { id := ov patch.id base.id
    source := ov patch.source base.source
    callsign := ov patch.callsign base.callsign
    waypoint := ov patch.waypoint base.waypoint
    estimate := ov patch.estimate base.estimate
    altitude := ov patch.altitude base.altitude
    mach := ov patch.mach base.mach
    squawk := ov patch.squawk base.squawk
    routeWaypoints := ov patch.routeWaypoints base.routeWaypoints }

/-- JS property read `obj[k]` on a string-keyed object. -/
def lookupL {α : Type} : List (String × α) → String → Option α
  | [], _ => none
  | kv :: rest, k => if kv.1 = k then some kv.2 else lookupL rest k

/-- JS spread update `{ ...obj, [k]: v }`: replaces the value at an
existing key in place, appends a new key at the end. -/
def setL {α : Type} : List (String × α) → String → α → List (String × α)
  | [], k, v => [(k, v)]
  | kv :: rest, k, v => if kv.1 = k then (k, v) :: rest else kv :: setL rest k v

/-- The key list, as in `Object.keys`. -/
def keysOf {α : Type} (m : List (String × α)) : List String := m.map Prod.fst

/-- All item ids appearing across all lane sequences, in order. -/
def laneIds : List (String × List String) → List String
  | [] => []
  | kv :: rest => kv.2 ++ laneIds rest

/-- The full board snapshot: lane name → ordered id sequence, item id →
item object, and the logical clock.  `lastUpdated` is `Option Nat`
because the server installs arbitrary `board:update` payloads wholesale,
including ones lacking the field. -/
structure BoardState where
  lanes : List (String × List String)
  items : List (String × Item)
  lastUpdated : Option Nat
deriving DecidableEq, Repr

/-- Effective logical timestamp, `(s?.lastUpdated || 0)`. -/
def luD (s : BoardState) : Nat :=
  match s.lastUpdated with
  | some t => t
  | none => 0

/-- Evaluates `mtime || Date.now()`: `mtime` when present and nonzero (JS falsy
coercion), the current wall clock otherwise. -/
def jsOr (mtime : Option Nat) (now : Nat) : Nat :=
  match mtime with
  | some t => if t = 0 then now else t
  | none => now

/-- The server's startup state: the five fixed lanes all empty, no
items, `lastUpdated = Date.now()` (passed as `t0`). -/
def initState (t0 : Nat) : BoardState :=
  { lanes := [("Unassigned", []), ("New York", []), ("Curacao", []),
              ("Piarco", []), ("Maiquetia", [])]
    items := []
    lastUpdated := some t0 }

/-- List insertion at a clamped position (past-the-end inserts at the
end), the effect of `arr.splice(pos, 0, x)` for `0 ≤ pos`. -/
def insertAt {α : Type} (n : Nat) (x : α) : List α → List α
  | [] => [x]
  | y :: ys =>
    match n with
    | 0 => x :: y :: ys
    | m + 1 => y :: insertAt m x ys

/-- The start position `Array.prototype.splice` actually uses: negative
indices count from the end (clamped at 0), positive ones are clamped to
the length. -/
def spliceStart (n : Int) (len : Nat) : Nat :=
  if n < 0 then (Int.ofNat len + n).toNat else min n.toNat len

/-- The lane update performed by the `lanes:move` handler:
`fromArr = (lanes[from] || []).filter(x => x !== id)`,
`toArr = [...(lanes[to] || [])]` spliced or unshifted, then
`{ ...lanes, [from]: fromArr, [to]: toArr }`. -/
def moveLanes (L : List (String × List String)) (i f t : String)
    (index : Option Int) : List (String × List String) :=
  let fromArr := ((lookupL L f).getD []).filter (fun x => x != i)
  let toArr := (lookupL L t).getD []
  let toArr2 :=
    match index with
    | some n => insertAt (spliceStart n toArr.length) i toArr
    | none => i :: toArr
  setL (setL L f fromArr) t toArr2

/-- Server `board:update` handler: install `incoming` iff
`(incoming?.lastUpdated || 0) >= (boardState?.lastUpdated || 0)`;
on acceptance broadcast the new state (returned as `some`), otherwise
leave the state untouched and broadcast nothing. -/
def boardUpdate (st incoming : BoardState) : BoardState × Option BoardState :=
  if luD st ≤ luD incoming then (incoming, some incoming) else (st, none)

/-- The `{id, patch, mtime}` payload rebroadcast by `item:patch`. -/
structure PatchBroadcast where
  id : String
  patch : Item
  mtime : Nat
deriving DecidableEq, Repr

/-- Server `item:patch` handler: drops the message when `id` is absent
or falsy, `patch` is absent, or `id` is unknown; otherwise shallow-merges
the patch into the item, sets `lastUpdated = mtime || Date.now()` and
rebroadcasts. -/
def itemPatch (st : BoardState) (id : Option String) (patch : Option Item)
    (mtime : Option Nat) (now : Nat) : BoardState × Option PatchBroadcast :=
  match id, patch with
  | some i, some p =>
    if i = "" then (st, none)
    else
      match lookupL st.items i with
      | none => (st, none)
      | some it =>
        let lu := jsOr mtime now
        ({ st with items := setL st.items i (mergeItem it p)
                   lastUpdated := some lu },
         some ⟨i, p, lu⟩)
  | _, _ => (st, none)

/-- The `{id, from, to, index, mtime}` payload rebroadcast by
`lanes:move`. -/
structure MoveBroadcast where
  id : String
  «from» : String
  «to» : String
  index : Option Int
  mtime : Nat
deriving DecidableEq, Repr

/-- Server `lanes:move` handler: drops the message when any of `id`,
`from`, `to` is absent or falsy; otherwise performs `moveLanes`, sets
`lastUpdated = mtime || Date.now()` and rebroadcasts. -/
def lanesMove (st : BoardState) (id «from» «to» : Option String)
    (index : Option Int) (mtime : Option Nat) (now : Nat) :
    BoardState × Option MoveBroadcast :=
  match id, «from», «to» with
  | some i, some f, some t =>
    if i = "" ∨ f = "" ∨ t = "" then (st, none)
    else
      let lu := jsOr mtime now
      ({ st with lanes := moveLanes st.lanes i f t index
                 lastUpdated := some lu },
       some ⟨i, f, t, index, lu⟩)
  | _, _, _ => (st, none)

/-- One inbound server-side protocol message, carrying the wall-clock
value `now` the handler would read from `Date.now()`. -/
inductive Msg where
  | update (payload : BoardState)
  | patch (id : Option String) (p : Option Item) (mtime : Option Nat) (now : Nat)
  | move (id «from» «to» : Option String) (index : Option Int)
      (mtime : Option Nat) (now : Nat)

/-- The authoritative state after the server processes one message
(rejected messages leave it unchanged). -/
def stepMsg (s : BoardState) : Msg → BoardState
  | .update c => (boardUpdate s c).1
  | .patch id p mt now => (itemPatch s id p mt now).1
  | .move id f t idx mt now => (lanesMove s id f t idx mt now).1

/-- Server states reachable from the startup state via any sequence of
protocol messages. -/
inductive Reachable (t0 : Nat) : BoardState → Prop
  | init : Reachable t0 (initState t0)
  | step {s : BoardState} (m : Msg) : Reachable t0 s → Reachable t0 (stepMsg s m)

/-- Referential integrity: the ids across all lane sequences are exactly
the keys of the items mapping. -/
def RefIntegrity (s : BoardState) : Prop :=
  (∀ x ∈ laneIds s.lanes, x ∈ keysOf s.items) ∧
  (∀ x ∈ keysOf s.items, x ∈ laneIds s.lanes)

instance (s : BoardState) : Decidable (RefIntegrity s) := by
  unfold RefIntegrity; infer_instance

/-- Single-lane membership: every id in the items mapping occurs exactly
once across all lane sequences (hence in exactly one lane, exactly once
there). -/
def SingleMem (s : BoardState) : Prop :=
  ∀ x ∈ keysOf s.items, (laneIds s.lanes).count x = 1

instance (s : BoardState) : Decidable (SingleMem s) := by
  unfold SingleMem; infer_instance

/-! ## Client reconciler (`App.tsx`) -/

/-- Client `item:patch:apply` handler:
`items: { ...prev.items, [id]: { ...prev.items[id], ...patch } }`,
`lastUpdated: mtime || Date.now()`.  When `id` is unknown,
`prev.items[id]` is `undefined` and the object spread yields `{}`, so a
fresh entry built from the patch alone is inserted. -/
def itemPatchApply (st : BoardState) (id : String) (p : Item)
    (mtime : Option Nat) (now : Nat) : BoardState :=
  { st with
      items := setL st.items id (mergeItem ((lookupL st.items id).getD emptyItem) p)
      lastUpdated := some (jsOr mtime now) }

/-- Client `lanes:move:apply` handler: reads `prev.lanes[from]` and
`prev.lanes[to]` with no default, so a lane name missing from the mirror
makes `.filter` / array spread throw a `TypeError` (modelled as `none`);
otherwise the same filter/splice/unshift update as the server. -/
def lanesMoveApply (st : BoardState) (id «from» «to» : String)
    (index : Option Int) (mtime : Option Nat) (now : Nat) : Option BoardState :=
  match lookupL st.lanes «from», lookupL st.lanes «to» with
  | some _, some _ =>
    some { st with
             lanes := moveLanes st.lanes id «from» «to» index
             lastUpdated := some (jsOr mtime now) }
  | _, _ => none

/-- Client `deleteItem`: drops the key from `items`, filters the id out
of every lane, and unconditionally sets `lastUpdated = Date.now()`. -/
def deleteItem (st : BoardState) (id : String) (now : Nat) : BoardState :=
  { lanes := st.lanes.map (fun kv => (kv.1, kv.2.filter (fun x => x != id)))
    items := st.items.filter (fun kv => kv.1 != id)
    lastUpdated := some now }

/-! ## Concrete states used by counterexamples and witnesses -/

/-- A `board:update` payload placing item `X` in `Unassigned`. -/
def c2payload : BoardState :=
  { lanes := [("Unassigned", ["X"]), ("New York", []), ("Curacao", []),
              ("Piarco", []), ("Maiquetia", [])]
    items := [("X", emptyItem)]
    lastUpdated := some 1 }

/-- Reachable state: startup, then a `lanes:move` for an id that is in no
lane and not in `items`. -/
def c1s : BoardState :=
  stepMsg (initState 1)
    (.move (some "X") (some "Unassigned") (some "Piarco") none (some 5) 5)

/-- Reachable state: startup, a coarse update installing `c2payload`,
then a `lanes:move` whose `from` and `to` are both `Unassigned`. -/
def c2s : BoardState :=
  stepMsg (stepMsg (initState 1) (.update c2payload))
    (.move (some "X") (some "Unassigned") (some "Unassigned") (some 1) (some 2) 2)

/-- A small board with `X` alone in `Unassigned`, integrity intact. -/
def c1w : BoardState :=
  { lanes := [("Unassigned", ["X"]), ("Piarco", [])]
    items := [("X", emptyItem)]
    lastUpdated := some 3 }

/-- A board whose `Piarco` lane holds `["A", "B"]`. -/
def c4s : BoardState :=
  { lanes := [("Unassigned", []), ("Piarco", ["A", "B"])]
    items := []
    lastUpdated := some 1 }

/-- A client mirror with no lanes and no items (installed wholesale by a
malformed `board:state`). -/
def c5mirror : BoardState := { lanes := [], items := [], lastUpdated := some 1 }

/-- A patch carrying only an altitude. -/
def altPatch : Item := { altitude := some "FL350" }

/-- A board with one item `A`, used against the unknown id `nope`. -/
def c6s : BoardState :=
  { lanes := [("Unassigned", ["A"])], items := [("A", emptyItem)]
    lastUpdated := some 100 }

/-- A board whose clock is already at 1000. -/
def c9s : BoardState :=
  { lanes := [("Unassigned", ["X"])], items := [("X", emptyItem)]
    lastUpdated := some 1000 }

/-- A second small intact board (for the C2 witness). -/
def c2w : BoardState :=
  { lanes := [("Unassigned", ["X"]), ("Piarco", ["Y"])]
    items := [("X", emptyItem), ("Y", emptyItem)]
    lastUpdated := some 3 }

/-- Current authoritative state with clock 7 (C3 witness). -/
def c3cur : BoardState := { lanes := [], items := [], lastUpdated := some 7 }

/-- Candidate payload with clock 4 (C3 witness, stale). -/
def c3cand : BoardState :=
  { lanes := [("Unassigned", ["Z"])], items := [("Z", emptyItem)]
    lastUpdated := some 4 }

/-- A client mirror that does contain the touched lanes (C5 witness). -/
def c5w : BoardState :=
  { lanes := [("Unassigned", ["X"]), ("Piarco", [])]
    items := [("X", emptyItem)]
    lastUpdated := some 3 }

/-- Initial store for the C7 witness, clock 2. -/
def c7s0 : BoardState := { lanes := [], items := [], lastUpdated := some 2 }

/-- First coarse payload, clock 5 (C7 witness). -/
def c7p1 : BoardState :=
  { lanes := [("Unassigned", ["P"])], items := [("P", emptyItem)]
    lastUpdated := some 5 }

/-- Second coarse payload, clock 9 (C7 witness). -/
def c7p2 : BoardState :=
  { lanes := [("Piarco", ["Q"])], items := [("Q", emptyItem)]
    lastUpdated := some 9 }

/-- A board containing item `X` (C8 witness). -/
def c8s : BoardState :=
  { lanes := [("Unassigned", ["X"])]
    items := [("X", { emptyItem with callsign := some "JBU123" })]
    lastUpdated := some 10 }

/-- A board with a low clock, so a patch mtime can exceed it (C9 witness). -/
def c9w : BoardState :=
  { lanes := [("Unassigned", ["X"])], items := [("X", emptyItem)]
    lastUpdated := some 4 }

/-- A fresh store whose effective clock is 0 (C10 witness). -/
def c10cur : BoardState := { lanes := [], items := [], lastUpdated := some 0 }

/-- A payload whose `lastUpdated` key is missing (C10 witness). -/
def c10cand : BoardState :=
  { lanes := [("Unassigned", ["W"])], items := [("W", emptyItem)]
    lastUpdated := none }

/-- A store with a positive clock (C10 witness, rejection side). -/
def c10cur2 : BoardState := { lanes := [], items := [], lastUpdated := some 8 }

/-! ## Helper lemmas about the embedded map operations -/

theorem lookupL_setL {α : Type} (L : List (String × α)) (k k' : String) (v : α) :
    lookupL (setL L k v) k' = if k = k' then some v else lookupL L k' := by
  induction L with
  | nil => simp [setL, lookupL]
  | cons kv rest ih =>
    rcases kv with ⟨a, b⟩
    by_cases h : a = k
    · subst h
      by_cases h2 : a = k'
      · subst h2; simp [setL, lookupL]
      · simp [setL, lookupL, h2]
    · by_cases h2 : a = k'
      · subst h2
        have hk : ¬ k = a := fun e => h e.symm
        simp [setL, lookupL, h, hk]
      · simp [setL, lookupL, h, h2, ih]

theorem keysOf_setL_of_lookup {α : Type} {L : List (String × α)} {k : String}
    {w : α} (h : lookupL L k = some w) (v : α) :
    keysOf (setL L k v) = keysOf L := by
  induction L with
  | nil => simp [lookupL] at h
  | cons kv rest ih =>
    rcases kv with ⟨a, b⟩
    by_cases ha : a = k
    · subst ha; simp [setL, keysOf]
    · simp only [lookupL, ha, if_neg] at h
      simp [setL, keysOf, ha] at *
      exact ih h

theorem setL_setL {α : Type} (L : List (String × α)) (k : String) (v v' : α) :
    setL (setL L k v) k v' = setL L k v' := by
  induction L with
  | nil => simp [setL]
  | cons kv rest ih =>
    rcases kv with ⟨a, b⟩
    by_cases h : a = k
    · subst h; simp [setL]
    · simp [setL, h, ih]

theorem laneIds_decomp (L : List (String × List String)) (k : String) :
    ∃ pre suf : List String,
      laneIds L = pre ++ ((lookupL L k).getD [] ++ suf) ∧
      ∀ v, laneIds (setL L k v) = pre ++ (v ++ suf) := by
  induction L with
  | nil =>
    exact ⟨[], [], by simp [laneIds, lookupL], fun v => by simp [setL, laneIds]⟩
  | cons kv rest ih =>
    obtain ⟨pre, suf, h1, h2⟩ := ih
    rcases kv with ⟨a, w⟩
    by_cases h : a = k
    · subst h
      exact ⟨[], laneIds rest, by simp [laneIds, lookupL],
        fun v => by simp [setL, laneIds]⟩
    · refine ⟨w ++ pre, suf, ?_, fun v => ?_⟩
      · simp [laneIds, lookupL, h, h1, List.append_assoc]
      · simp [setL, h, laneIds, h2 v, List.append_assoc]

theorem insertAt_eq {α : Type} (x : α) :
    ∀ (n : Nat) (l : List α), insertAt n x l = l.take n ++ x :: l.drop n
  | n, [] => by cases n <;> simp [insertAt]
  | 0, y :: ys => by simp [insertAt]
  | n + 1, y :: ys => by simp [insertAt, insertAt_eq x n ys]

theorem count_insertAt_self (i : String) (n : Nat) (l : List String) :
    (insertAt n i l).count i = l.count i + 1 := by
  rw [insertAt_eq, List.count_append, List.count_cons_self]
  conv_rhs => rw [← List.take_append_drop n l, List.count_append]
  omega

theorem count_insertAt_ne {x i : String} (h : x ≠ i) (n : Nat) (l : List String) :
    (insertAt n i l).count x = l.count x := by
  rw [insertAt_eq, List.count_append, List.count_cons_of_ne h]
  conv_rhs => rw [← List.take_append_drop n l, List.count_append]

theorem mem_insertAt (x i : String) (n : Nat) (l : List String) :
    x ∈ insertAt n i l ↔ x = i ∨ x ∈ l := by
  rw [insertAt_eq]
  conv_rhs => rw [← List.take_append_drop n l]
  simp only [List.mem_append, List.mem_cons]
  tauto

theorem count_filter_bne_self (i : String) (l : List String) :
    (l.filter (fun x => x != i)).count i = 0 := by
  induction l with
  | nil => simp
  | cons a l ih =>
    by_cases h : a = i
    · simpa [List.filter_cons, h] using ih
    · rw [List.filter_cons, if_pos (by simpa [bne_iff_ne] using h),
        List.count_cons_of_ne (Ne.symm h)]
      exact ih

theorem count_filter_bne_ne {x i : String} (h : x ≠ i) (l : List String) :
    (l.filter (fun y => y != i)).count x = l.count x := by
  induction l with
  | nil => simp
  | cons a l ih =>
    by_cases ha : a = i
    · subst ha
      rw [List.filter_cons, if_neg (by simp), List.count_cons_of_ne h]
      exact ih
    · rw [List.filter_cons, if_pos (by simpa [bne_iff_ne] using ha)]
      by_cases hx : a = x
      · subst hx
        rw [List.count_cons_self, List.count_cons_self, ih]
      · rw [List.count_cons_of_ne (Ne.symm hx), List.count_cons_of_ne (Ne.symm hx)]
        exact ih

theorem count_moveCore_ne {x i : String} (hxi : x ≠ i)
    (L : List (String × List String)) (f t : String) (tb : List String)
    (htb : tb.count x = ((lookupL L t).getD []).count x) :
    (laneIds (setL (setL L f (((lookupL L f).getD []).filter (fun y => y != i))) t tb)).count x
      = (laneIds L).count x := by
  obtain ⟨p1, s1, hL, hset1⟩ := laneIds_decomp L f
  obtain ⟨p2, s2, hL1, hset2⟩ :=
    laneIds_decomp (setL L f (((lookupL L f).getD []).filter (fun y => y != i))) t
  have e1 := hset1 (((lookupL L f).getD []).filter (fun y => y != i))
  have e2 := hset2 tb
  have e3 := lookupL_setL L f t (((lookupL L f).getD []).filter (fun y => y != i))
  have q4 : (((lookupL L f).getD []).filter (fun y => y != i)).count x
      = ((lookupL L f).getD []).count x := count_filter_bne_ne hxi _
  have q1 : (laneIds L).count x
      = p1.count x + (((lookupL L f).getD []).count x + s1.count x) := by
    rw [hL, List.count_append, List.count_append]
  have q2 : (laneIds (setL L f (((lookupL L f).getD []).filter (fun y => y != i)))).count x
      = p1.count x + (((lookupL L f).getD []).count x + s1.count x) := by
    rw [e1, List.count_append, List.count_append, q4]
  rw [e2, List.count_append, List.count_append]
  by_cases hft : f = t
  · rw [if_pos hft] at e3
    have q3 : (laneIds (setL L f (((lookupL L f).getD []).filter (fun y => y != i)))).count x
        = p2.count x + (((lookupL L f).getD []).count x + s2.count x) := by
      rw [hL1, e3, List.count_append, List.count_append]
      simp [q4]
    have q5 : tb.count x = ((lookupL L f).getD []).count x := by
      rw [htb, hft]
    omega
  · rw [if_neg hft] at e3
    have q3 : (laneIds (setL L f (((lookupL L f).getD []).filter (fun y => y != i)))).count x
        = p2.count x + (((lookupL L t).getD []).count x + s2.count x) := by
      rw [hL1, e3, List.count_append, List.count_append]
    omega

theorem count_moveLanes_ne {x i : String} (hxi : x ≠ i)
    (L : List (String × List String)) (f t : String) (idx : Option Int) :
    (laneIds (moveLanes L i f t idx)).count x = (laneIds L).count x := by
  cases idx with
  | none =>
    exact count_moveCore_ne hxi L f t _ (List.count_cons_of_ne hxi _)
  | some n =>
    exact count_moveCore_ne hxi L f t _ (count_insertAt_ne hxi _ _)

theorem mem_moveLanes_self (L : List (String × List String)) (i f t : String)
    (idx : Option Int) : i ∈ laneIds (moveLanes L i f t idx) := by
  obtain ⟨p2, s2, hL1, hset2⟩ :=
    laneIds_decomp (setL L f (((lookupL L f).getD []).filter (fun y => y != i))) t
  cases idx with
  | none =>
    rw [moveLanes]
    rw [hset2 _]
    simp [List.mem_append]
  | some n =>
    rw [moveLanes]
    rw [hset2 _]
    simp [List.mem_append, mem_insertAt]

theorem mem_moveLanes_iff {x i : String} (L : List (String × List String))
    (f t : String) (idx : Option Int) :
    x ∈ laneIds (moveLanes L i f t idx) ↔ x = i ∨ x ∈ laneIds L := by
  by_cases hxi : x = i
  · subst hxi
    simp [mem_moveLanes_self]
  · rw [← List.count_pos_iff, ← List.count_pos_iff (l := laneIds L),
      count_moveLanes_ne hxi]
    simp [hxi]

theorem count_moveLanes_self {i : String} (L : List (String × List String))
    {f t : String} (idx : Option Int) (hft : f ≠ t)
    (hmem : i ∈ (lookupL L f).getD [])
    (hc : (laneIds L).count i = 1) :
    (laneIds (moveLanes L i f t idx)).count i = 1 := by
  obtain ⟨p1, s1, hL, hset1⟩ := laneIds_decomp L f
  obtain ⟨p2, s2, hL1, hset2⟩ :=
    laneIds_decomp (setL L f (((lookupL L f).getD []).filter (fun y => y != i))) t
  have e1 := hset1 (((lookupL L f).getD []).filter (fun y => y != i))
  have e3 := lookupL_setL L f t (((lookupL L f).getD []).filter (fun y => y != i))
  rw [if_neg hft] at e3
  have q4 : (((lookupL L f).getD []).filter (fun y => y != i)).count i = 0 :=
    count_filter_bne_self i _
  have qmem : 0 < ((lookupL L f).getD []).count i := List.count_pos_iff.2 hmem
  have q1 : (laneIds L).count i
      = p1.count i + (((lookupL L f).getD []).count i + s1.count i) := by
    rw [hL, List.count_append, List.count_append]
  have q2 : (laneIds (setL L f (((lookupL L f).getD []).filter (fun y => y != i)))).count i
      = p1.count i + s1.count i := by
    rw [e1, List.count_append, List.count_append, q4]
    omega
  have q3 : (laneIds (setL L f (((lookupL L f).getD []).filter (fun y => y != i)))).count i
      = p2.count i + (((lookupL L t).getD []).count i + s2.count i) := by
    rw [hL1, e3, List.count_append, List.count_append]
  have hp2 : p2.count i = 0 := by omega
  have hs2 : s2.count i = 0 := by omega
  have hto : ((lookupL L t).getD []).count i = 0 := by omega
  cases idx with
  | none =>
    rw [moveLanes, hset2 _, List.count_append, List.count_append,
      List.count_cons_self, hto, hp2, hs2]
  | some n =>
    rw [moveLanes, hset2 _, List.count_append, List.count_append,
      count_insertAt_self, hto, hp2, hs2]

theorem ov_idem {α : Type} (p b : Option α) : ov p (ov p b) = ov p b := by
  cases p <;> rfl

theorem mergeItem_idem (b p : Item) : mergeItem (mergeItem b p) p = mergeItem b p := by
  simp [mergeItem, ov_idem]

theorem itemPatch_lanes (st : BoardState) (id : Option String) (p : Option Item)
    (mt : Option Nat) (now : Nat) : (itemPatch st id p mt now).1.lanes = st.lanes := by
  unfold itemPatch
  cases id with
  | none => rfl
  | some i =>
    cases p with
    | none => rfl
    | some pp =>
      by_cases h : i = ""
      · simp [h]
      · simp only [h, if_false]
        cases lookupL st.items i <;> rfl

theorem itemPatch_keys (st : BoardState) (id : Option String) (p : Option Item)
    (mt : Option Nat) (now : Nat) :
    keysOf (itemPatch st id p mt now).1.items = keysOf st.items := by
  unfold itemPatch
  cases id with
  | none => rfl
  | some i =>
    cases p with
    | none => rfl
    | some pp =>
      by_cases h : i = ""
      · simp [h]
      · simp only [h, if_false]
        cases hl : lookupL st.items i with
        | none => rfl
        | some it => simpa using keysOf_setL_of_lookup hl (mergeItem it pp)

theorem refIntegrity_itemPatch {st : BoardState} (h : RefIntegrity st)
    (id : Option String) (p : Option Item) (mt : Option Nat) (now : Nat) :
    RefIntegrity (itemPatch st id p mt now).1 := by
  unfold RefIntegrity
  rw [itemPatch_lanes, itemPatch_keys]
  exact h

theorem singleMem_itemPatch {st : BoardState} (h : SingleMem st)
    (id : Option String) (p : Option Item) (mt : Option Nat) (now : Nat) :
    SingleMem (itemPatch st id p mt now).1 := by
  unfold SingleMem
  rw [itemPatch_lanes, itemPatch_keys]
  exact h

theorem lanesMove_fields (st : BoardState) (i f t : String)
    (hi : i ≠ "") (hf : f ≠ "") (ht : t ≠ "") (idx : Option Int)
    (mt : Option Nat) (now : Nat) :
    (lanesMove st (some i) (some f) (some t) idx mt now).1
      = { st with lanes := moveLanes st.lanes i f t idx
                  lastUpdated := some (jsOr mt now) } := by
  unfold lanesMove
  simp [hi, hf, ht]

theorem refIntegrity_lanesMove {st : BoardState} (h : RefIntegrity st)
    {i : String} (f t : String) (idx : Option Int) (mt : Option Nat) (now : Nat)
    (hmem : i ∈ keysOf st.items) :
    RefIntegrity (lanesMove st (some i) (some f) (some t) idx mt now).1 := by
  by_cases hi : i = ""
  · simp [lanesMove, hi]; exact h
  by_cases hf : f = ""
  · simp [lanesMove, hi, hf]; exact h
  by_cases ht : t = ""
  · simp [lanesMove, hi, hf, ht]; exact h
  rw [lanesMove_fields st i f t hi hf ht idx mt now]
  obtain ⟨h1, h2⟩ := h
  constructor
  · intro x hx
    rcases (mem_moveLanes_iff st.lanes f t idx).1 hx with rfl | hx'
    · exact hmem
    · exact h1 x hx'
  · intro x hx
    exact (mem_moveLanes_iff st.lanes f t idx).2 (Or.inr (h2 x hx))

theorem singleMem_lanesMove {st : BoardState} (h : SingleMem st)
    {i f t : String} (idx : Option Int) (mt : Option Nat) (now : Nat)
    (hft : f ≠ t) (hmem : i ∈ (lookupL st.lanes f).getD []) :
    SingleMem (lanesMove st (some i) (some f) (some t) idx mt now).1 := by
  by_cases hi : i = ""
  · simp [lanesMove, hi]; exact h
  by_cases hf : f = ""
  · simp [lanesMove, hi, hf]; exact h
  by_cases ht : t = ""
  · simp [lanesMove, hi, hf, ht]; exact h
  rw [lanesMove_fields st i f t hi hf ht idx mt now]
  intro x hx
  by_cases hxi : x = i
  · subst hxi
    exact count_moveLanes_self st.lanes idx hft hmem (h x hx)
  · rw [count_moveLanes_ne hxi]
    exact h x hx

theorem mem_laneIds_of_mem {L : List (String × List String)}
    {kv : String × List String} (h : kv ∈ L) {x : String} (hx : x ∈ kv.2) :
    x ∈ laneIds L := by
  induction L with
  | nil => cases h
  | cons a rest ih =>
    rcases List.mem_cons.1 h with rfl | h
    · simp [laneIds, hx]
    · simp [laneIds, ih h]

theorem lookupL_eq_none {α : Type} {m : List (String × α)} {k : String}
    (h : lookupL m k = none) : ∀ kv ∈ m, kv.1 ≠ k := by
  induction m with
  | nil => simp
  | cons a rest ih =>
    intro kv hkv
    by_cases ha : a.1 = k
    · simp [lookupL, ha] at h
    · simp only [lookupL, ha, if_neg, if_false] at h
      rcases List.mem_cons.1 hkv with rfl | hkv
      · exact ha
      · exact ih h kv hkv

theorem deleteItem_untouched {st : BoardState} {i : String} (now : Nat)
    (hitems : lookupL st.items i = none) (hlanes : i ∉ laneIds st.lanes) :
    deleteItem st i now = { st with lastUpdated := some now } := by
  unfold deleteItem
  have hlaneEq : st.lanes.map (fun kv => (kv.1, kv.2.filter (fun x => x != i)))
      = st.lanes := by
    have : ∀ kv ∈ st.lanes, (kv.1, kv.2.filter (fun x => x != i)) = kv := by
      intro kv hkv
      have : kv.2.filter (fun x => x != i) = kv.2 := by
        refine List.filter_eq_self.2 (fun a ha => ?_)
        refine bne_iff_ne.2 (fun e => hlanes ?_)
        exact e ▸ mem_laneIds_of_mem hkv ha
      rw [this]
    calc st.lanes.map (fun kv => (kv.1, kv.2.filter (fun x => x != i)))
        = st.lanes.map id := List.map_congr_left this
      _ = st.lanes := List.map_id st.lanes
  have hitemEq : st.items.filter (fun kv => kv.1 != i) = st.items := by
    refine List.filter_eq_self.2 (fun kv hkv => ?_)
    exact bne_iff_ne.2 (lookupL_eq_none hitems kv hkv)
  rw [hlaneEq, hitemEq]

theorem take_min_len {α : Type} (l : List α) (a : Nat) :
    l.take (min a l.length) = l.take a := by
  rcases Nat.le_total a l.length with h | h
  · rw [Nat.min_eq_left h]
  · rw [Nat.min_eq_right h, List.take_length, List.take_of_length_le h]

theorem drop_min_len {α : Type} (l : List α) (a : Nat) :
    l.drop (min a l.length) = l.drop a := by
  rcases Nat.le_total a l.length with h | h
  · rw [Nat.min_eq_left h]
  · rw [Nat.min_eq_right h, List.drop_length, List.drop_of_length_le h]

/-! ## Claims -/

/-- C1 (amended): referential integrity holds in the startup state, is
preserved by every `item:patch`, and is preserved by a `lanes:move`
whose moved id is a key of the items mapping.  (It is not preserved by
arbitrary accepted messages: see the counterexample, where a
`lanes:move` of an id unknown to `items` dangles that id in a lane, and
note `board:update` installs arbitrary payloads wholesale.) -/
theorem C1_integrity (s : BoardState) (h : RefIntegrity s) :
    (∀ t0, RefIntegrity (initState t0)) ∧
    (∀ (id : Option String) (p : Option Item) (mt : Option Nat) (now : Nat),
      RefIntegrity (itemPatch s id p mt now).1) ∧
    (∀ (i f t : String) (idx : Option Int) (mt : Option Nat) (now : Nat),
      i ∈ keysOf s.items →
      RefIntegrity (lanesMove s (some i) (some f) (some t) idx mt now).1) :=
  ⟨fun _ => ⟨by simp [initState, laneIds, keysOf], by simp [initState, keysOf]⟩,
   fun id p mt now => refIntegrity_itemPatch h id p mt now,
   fun _ f t idx mt now hmem => refIntegrity_lanesMove h f t idx mt now hmem⟩

/-- C1 counterexample: from the startup state, the accepted message
`lanes:move {id: "X", from: "Unassigned", to: "Piarco"}` yields a
reachable state in which lane `Piarco` holds `"X"` while the items
mapping is empty — the claimed invariant fails on a reachable state. -/
theorem C1_counterexample : Reachable 1 c1s ∧ ¬ RefIntegrity c1s :=
  ⟨Reachable.step _ Reachable.init, by decide⟩

/-- C1 witness: the preservation theorem applied at a concrete intact
board and a move of an id that is in `items`. -/
theorem C1_witness :
    RefIntegrity c1w ∧
    RefIntegrity (lanesMove c1w (some "X") (some "Unassigned") (some "Piarco")
      none (some 9) 9).1 :=
  ⟨by decide,
   (C1_integrity c1w (by decide)).2.2 "X" "Unassigned" "Piarco" none (some 9) 9
     (by decide)⟩

/-- C2 (amended): single-lane membership holds in the startup state, is
preserved by every `item:patch`, and is preserved by a `lanes:move`
whose `from` and `to` differ and whose id currently sits in lane `from`.
(A move whose `from` and `to` name the same lane duplicates the id
within that lane — see the counterexample — and `board:update` can
install arbitrary payloads.) -/
theorem C2_single_lane (s : BoardState) (h : SingleMem s) :
    (∀ t0, SingleMem (initState t0)) ∧
    (∀ (id : Option String) (p : Option Item) (mt : Option Nat) (now : Nat),
      SingleMem (itemPatch s id p mt now).1) ∧
    (∀ (i f t : String) (idx : Option Int) (mt : Option Nat) (now : Nat),
      f ≠ t → i ∈ (lookupL s.lanes f).getD [] →
      SingleMem (lanesMove s (some i) (some f) (some t) idx mt now).1) :=
  ⟨fun _ => by intro x hx; simp [initState, keysOf] at hx,
   fun id p mt now => singleMem_itemPatch h id p mt now,
   fun _ _ _ idx mt now hft hmem => singleMem_lanesMove h idx mt now hft hmem⟩

/-- C2 counterexample: install a payload holding item `X` in
`Unassigned` by coarse update, then process
`lanes:move {id: "X", from: "Unassigned", to: "Unassigned", index: 1}`:
the resulting reachable state has `Unassigned = ["X", "X"]`, so the id
appears twice in one lane. -/
theorem C2_counterexample : Reachable 1 c2s ∧ ¬ SingleMem c2s :=
  ⟨Reachable.step _ (Reachable.step _ Reachable.init), by decide⟩

/-- C2 witness: the preservation theorem applied at a concrete board and
a cross-lane move of an id sitting in the `from` lane. -/
theorem C2_witness :
    SingleMem c2w ∧
    SingleMem (lanesMove c2w (some "X") (some "Unassigned") (some "Piarco")
      (some 1) (some 9) 9).1 :=
  ⟨by decide,
   (C2_single_lane c2w (by decide)).2.2 "X" "Unassigned" "Piarco" (some 1) (some 9) 9
     (by decide) (by decide)⟩

/-- C3 (confirmed): the `board:update` handler installs the candidate
and broadcasts it iff `candidate.lastUpdated >= current.lastUpdated`
(ties accepted); on rejection the stored state is exactly unchanged and
no broadcast is emitted. -/
theorem C3_replaceIfNewer (st c : BoardState) (a b : Nat)
    (hst : st.lastUpdated = some a) (hc : c.lastUpdated = some b) :
    (a ≤ b → boardUpdate st c = (c, some c)) ∧
    (b < a → boardUpdate st c = (st, none)) := by
  have ha : luD st = a := by simp [luD, hst]
  have hb : luD c = b := by simp [luD, hc]
  unfold boardUpdate
  rw [ha, hb]
  constructor
  · intro h; rw [if_pos h]
  · intro h; rw [if_neg (by omega)]

/-- C3 witness: a stale candidate (clock 4 against 7) is rejected with
the state unchanged and no broadcast. -/
theorem C3_witness : boardUpdate c3cur c3cand = (c3cur, none) :=
  (C3_replaceIfNewer c3cur c3cand 7 4 rfl rfl).2 (by decide)

/-- C4 (amended): `lanes:move` removes the id from lane `from` (when
`from ≠ to`) and inserts it into lane `to` at the head when `index` is
absent; when `index` is a number the insertion position is the splice
clamp of `index` — `index` itself while in range, the end of the
sequence when `index` exceeds the length (not the head, as claimed),
and `length + index` (clamped at 0) for negative `index`.  Unknown lane
names default to the empty sequence. -/
theorem C4_applyMove (st : BoardState) (i f t : String)
    (hi : i ≠ "") (hf : f ≠ "") (ht : t ≠ "") (mt : Option Nat) (now : Nat) :
    (∀ idx : Option Int, f ≠ t →
      lookupL (lanesMove st (some i) (some f) (some t) idx mt now).1.lanes f
        = some (((lookupL st.lanes f).getD []).filter (fun x => x != i))) ∧
    (lookupL (lanesMove st (some i) (some f) (some t) none mt now).1.lanes t
        = some (i :: (lookupL st.lanes t).getD [])) ∧
    (∀ n : Int, 0 ≤ n →
      lookupL (lanesMove st (some i) (some f) (some t) (some n) mt now).1.lanes t
        = some (((lookupL st.lanes t).getD []).take n.toNat
            ++ i :: ((lookupL st.lanes t).getD []).drop n.toNat)) ∧
    (∀ n : Int, n < 0 →
      lookupL (lanesMove st (some i) (some f) (some t) (some n) mt now).1.lanes t
        = some (((lookupL st.lanes t).getD []).take
                 (Int.ofNat ((lookupL st.lanes t).getD []).length + n).toNat
            ++ i :: ((lookupL st.lanes t).getD []).drop
                 (Int.ofNat ((lookupL st.lanes t).getD []).length + n).toNat)) := by
  refine ⟨?_, ?_, ?_, ?_⟩
  · intro idx hft
    rw [lanesMove_fields st i f t hi hf ht idx mt now]
    show lookupL (moveLanes st.lanes i f t idx) f = _
    simp only [moveLanes]
    rw [lookupL_setL, if_neg (fun e => hft e.symm), lookupL_setL, if_pos rfl]
  · rw [lanesMove_fields st i f t hi hf ht none mt now]
    show lookupL (moveLanes st.lanes i f t none) t = _
    simp only [moveLanes]
    rw [lookupL_setL, if_pos rfl]
  · intro n hn
    rw [lanesMove_fields st i f t hi hf ht (some n) mt now]
    show lookupL (moveLanes st.lanes i f t (some n)) t = _
    simp only [moveLanes]
    rw [lookupL_setL, if_pos rfl]
    congr 1
    rw [insertAt_eq]
    show (((lookupL st.lanes t).getD []).take (spliceStart n _)
        ++ i :: ((lookupL st.lanes t).getD []).drop (spliceStart n _)) = _
    rw [spliceStart, if_neg (by omega), take_min_len, drop_min_len]
  · intro n hn
    rw [lanesMove_fields st i f t hi hf ht (some n) mt now]
    show lookupL (moveLanes st.lanes i f t (some n)) t = _
    simp only [moveLanes]
    rw [lookupL_setL, if_pos rfl]
    congr 1
    rw [insertAt_eq]
    show (((lookupL st.lanes t).getD []).take (spliceStart n _)
        ++ i :: ((lookupL st.lanes t).getD []).drop (spliceStart n _)) = _
    rw [spliceStart, if_pos hn]

/-- C4 counterexample: moving `X` into `Piarco = ["A", "B"]` with the
out-of-range index 5 appends it at the end (`["A", "B", "X"]`), not at
the head (`["X", "A", "B"]`) as the claim states for out-of-range
indices. -/
theorem C4_counterexample :
    lookupL (lanesMove c4s (some "X") (some "Unassigned") (some "Piarco")
      (some 5) (some 2) 2).1.lanes "Piarco" = some ["A", "B", "X"] ∧
    lookupL (lanesMove c4s (some "X") (some "Unassigned") (some "Piarco")
      (some 5) (some 2) 2).1.lanes "Piarco" ≠ some ["X", "A", "B"] := by
  refine ⟨by decide, by decide⟩

/-- C4 witness: the characterization applied at the concrete board,
index 5 against a length-2 lane. -/
theorem C4_witness :
    lookupL (lanesMove c4s (some "X") (some "Unassigned") (some "Piarco")
      (some 5) (some 2) 2).1.lanes "Piarco"
      = some (((lookupL c4s.lanes "Piarco").getD []).take (Int.toNat 5)
          ++ "X" :: ((lookupL c4s.lanes "Piarco").getD []).drop (Int.toNat 5)) :=
  (C4_applyMove c4s "X" "Unassigned" "Piarco" (by decide) (by decide) (by decide)
    (some 2) 2).2.2.1 5 (by decide)

/-- C5 (amended): for ids present in the mirror the client
`item:patch:apply` handler computes exactly the server's patch result,
and for lanes present in the mirror `lanes:move:apply` computes exactly
the server's move result without raising; but a patch for an id absent
from the mirror inserts a brand-new entry built from the patch fields
alone (it is not skipped), and a move naming a lane absent from the
mirror's lanes mapping throws (modelled as `none`) instead of treating
it as empty. -/
theorem C5_reconciler (st : BoardState) :
    (∀ (i : String) (p : Item) (mt : Option Nat) (now : Nat) (it : Item),
      i ≠ "" → lookupL st.items i = some it →
      itemPatchApply st i p mt now = (itemPatch st (some i) (some p) mt now).1) ∧
    (∀ (i : String) (p : Item) (mt : Option Nat) (now : Nat),
      lookupL st.items i = none →
      (itemPatchApply st i p mt now).items = setL st.items i (mergeItem emptyItem p)) ∧
    (∀ (i f t : String) (idx : Option Int) (mt : Option Nat) (now : Nat),
      i ≠ "" → f ≠ "" → t ≠ "" →
      (lookupL st.lanes f).isSome → (lookupL st.lanes t).isSome →
      lanesMoveApply st i f t idx mt now
        = some (lanesMove st (some i) (some f) (some t) idx mt now).1) ∧
    (∀ (i f t : String) (idx : Option Int) (mt : Option Nat) (now : Nat),
      lookupL st.lanes f = none ∨ lookupL st.lanes t = none →
      lanesMoveApply st i f t idx mt now = none) := by
  refine ⟨?_, ?_, ?_, ?_⟩
  · intro i p mt now it hi hit
    unfold itemPatchApply itemPatch
    simp [hi, hit]
  · intro i p mt now hnone
    unfold itemPatchApply
    simp [hnone]
  · intro i f t idx mt now hi hf ht hsf hst2
    rcases Option.isSome_iff_exists.1 hsf with ⟨fa, hfa⟩
    rcases Option.isSome_iff_exists.1 hst2 with ⟨ta, hta⟩
    unfold lanesMoveApply
    rw [hfa, hta, lanesMove_fields st i f t hi hf ht idx mt now]
  · intro i f t idx mt now h
    unfold lanesMoveApply
    rcases h with h | h
    · rw [h]
    · rw [h]
      cases lookupL st.lanes f <;> rfl

/-- C5 counterexample: on a mirror with empty `items` and `lanes`, a
patch-apply for the unknown id `X` changes the items mapping (it
inserts a patch-only entry), and a move-apply naming lanes missing from
the mirror throws (`none`) — both contrary to the claim. -/
theorem C5_counterexample :
    (itemPatchApply c5mirror "X" altPatch (some 2) 2).items ≠ c5mirror.items ∧
    lanesMoveApply c5mirror "X" "Unassigned" "Piarco" none (some 2) 2 = none := by
  refine ⟨by decide, by decide⟩

/-- C5 witness: the move correspondence applied on a mirror that does
contain both lanes. -/
theorem C5_witness :
    lanesMoveApply c5w "X" "Unassigned" "Piarco" none (some 9) 9
      = some (lanesMove c5w (some "X") (some "Unassigned") (some "Piarco")
          none (some 9) 9).1 :=
  (C5_reconciler c5w).2.2.1 "X" "Unassigned" "Piarco" none (some 9) 9
    (by decide) (by decide) (by decide) (by decide) (by decide)

/-- C6 (amended): the server `item:patch` handler leaves the whole
BoardState (including `lastUpdated`) unchanged and emits no broadcast
when the id is unknown; the client `deleteItem` of an id absent from
items and lanes leaves `items` and `lanes` unchanged but, contrary to
the claim, unconditionally resets `lastUpdated` to the current wall
clock.  Neither raises. -/
theorem C6_unknown_id (st : BoardState) :
    (∀ (i : String) (p : Item) (mt : Option Nat) (now : Nat),
      lookupL st.items i = none →
      itemPatch st (some i) (some p) mt now = (st, none)) ∧
    (∀ (i : String) (now : Nat),
      lookupL st.items i = none → i ∉ laneIds st.lanes →
      deleteItem st i now = { st with lastUpdated := some now }) := by
  refine ⟨?_, ?_⟩
  · intro i p mt now hnone
    unfold itemPatch
    by_cases hi : i = "" <;> simp [hi, hnone]
  · intro i now h1 h2
    exact deleteItem_untouched now h1 h2

/-- C6 counterexample: deleting the non-existent id `nope` on a board
whose clock is 100 yields a different BoardState — `lastUpdated` jumps
to the wall clock (200), contradicting "leaves the entire BoardState
unchanged — including lastUpdated". -/
theorem C6_counterexample :
    lookupL c6s.items "nope" = none ∧ deleteItem c6s "nope" 200 ≠ c6s := by
  refine ⟨by decide, by decide⟩

/-- C6 witness: the amended characterization at the concrete board. -/
theorem C6_witness :
    deleteItem c6s "nope" 200 = { c6s with lastUpdated := some 200 } :=
  (C6_unknown_id c6s).2 "nope" 200 (by decide) (by decide)

/-- C7 (confirmed): if the store starts no newer than `T1` and two
coarse payloads carry timestamps `T1 < T2`, then applying both through
`board:update` in either order leaves the store equal to the `T2`
payload. -/
theorem C7_lww (s0 p1 p2 : BoardState) (t1 t2 : Nat)
    (h1 : p1.lastUpdated = some t1) (h2 : p2.lastUpdated = some t2)
    (h0 : luD s0 ≤ t1) (hlt : t1 < t2) :
    (boardUpdate (boardUpdate s0 p1).1 p2).1 = p2 ∧
    (boardUpdate (boardUpdate s0 p2).1 p1).1 = p2 := by
  have e1 : luD p1 = t1 := by simp [luD, h1]
  have e2 : luD p2 = t2 := by simp [luD, h2]
  constructor
  · have hacc1 : boardUpdate s0 p1 = (p1, some p1) := by
      unfold boardUpdate; rw [if_pos (by omega)]
    rw [hacc1]
    have hacc2 : boardUpdate p1 p2 = (p2, some p2) := by
      unfold boardUpdate; rw [if_pos (by omega)]
    rw [hacc2]
  · have hacc3 : boardUpdate s0 p2 = (p2, some p2) := by
      unfold boardUpdate; rw [if_pos (by omega)]
    rw [hacc3]
    have hrej : boardUpdate p2 p1 = (p2, none) := by
      unfold boardUpdate; rw [if_neg (by omega)]
    rw [hrej]

/-- C7 witness: clocks 2 ≤ 5 < 9 at concrete payloads, both orders
converge to the clock-9 payload. -/
theorem C7_witness :
    (boardUpdate (boardUpdate c7s0 c7p1).1 c7p2).1 = c7p2 ∧
    (boardUpdate (boardUpdate c7s0 c7p2).1 c7p1).1 = c7p2 :=
  C7_lww c7s0 c7p1 c7p2 5 9 rfl rfl (by decide) (by decide)

/-- C8 (confirmed): on a state containing item `id`, applying the same
`{id, patch, mtime}` message twice through `item:patch` yields the same
full state (item and `lastUpdated` included) as applying it once, for
any wall-clock values at the two applications, provided the message's
`mtime` is an actual (nonzero) timestamp. -/
theorem C8_patch_idempotent (st : BoardState) (i : String) (it p : Item)
    (t now1 now2 : Nat) (hit : lookupL st.items i = some it) (ht : t ≠ 0) :
    (itemPatch (itemPatch st (some i) (some p) (some t) now1).1
        (some i) (some p) (some t) now2).1
      = (itemPatch st (some i) (some p) (some t) now1).1 := by
  by_cases hi : i = ""
  · unfold itemPatch; simp [hi]
  · unfold itemPatch
    simp only [hi, if_false, hit]
    simp [lookupL_setL, mergeItem_idem, setL_setL, jsOr, ht]

/-- C8 witness: a concrete double application with distinct wall
clocks. -/
theorem C8_witness :
    (itemPatch (itemPatch c8s (some "X") (some altPatch) (some 11) 500).1
        (some "X") (some altPatch) (some 11) 600).1
      = (itemPatch c8s (some "X") (some altPatch) (some 11) 500).1 :=
  C8_patch_idempotent c8s "X" { emptyItem with callsign := some "JBU123" }
    altPatch 11 500 600 (by decide) (by decide)

/-- C9 (amended): an accepted coarse update never decreases the
effective `lastUpdated`; an applied `item:patch` or `lanes:move` sets
`lastUpdated` to `mtime || Date.now()` regardless of the prior value,
so the clock advances only when that value is at least the prior one
(the counterexample shows a successful patch moving it backwards). -/
theorem C9_clock (st : BoardState) :
    (∀ c, luD st ≤ luD (boardUpdate st c).1) ∧
    (∀ (id : Option String) (p : Option Item) (mt : Option Nat) (now : Nat),
      luD st ≤ jsOr mt now → luD st ≤ luD (itemPatch st id p mt now).1) ∧
    (∀ (id f t : Option String) (idx : Option Int) (mt : Option Nat) (now : Nat),
      luD st ≤ jsOr mt now → luD st ≤ luD (lanesMove st id f t idx mt now).1) := by
  refine ⟨?_, ?_, ?_⟩
  · intro c
    unfold boardUpdate
    by_cases h : luD st ≤ luD c
    · rw [if_pos h]; exact h
    · rw [if_neg h]
  · intro id p mt now hle
    unfold itemPatch
    cases id with
    | none => exact le_refl _
    | some i =>
      cases p with
      | none => exact le_refl _
      | some pp =>
        by_cases hi : i = ""
        · simp [hi]
        · simp only [hi, if_false]
          cases hit : lookupL st.items i with
          | none => exact le_refl _
          | some it => simpa [luD] using hle
  · intro id f t idx mt now hle
    cases id with
    | none => exact le_refl _
    | some i =>
      cases f with
      | none => exact le_refl _
      | some ff =>
        cases t with
        | none => exact le_refl _
        | some tt =>
          by_cases hc : i = "" ∨ ff = "" ∨ tt = ""
          · simp only [lanesMove]
            rw [if_pos hc]
          · simp only [lanesMove]
            rw [if_neg hc]
            simpa [luD] using hle

/-- C9 counterexample: on a board whose clock is 1000, the message
`item:patch {id: "X", patch, mtime: 5}` is applied (a broadcast is
emitted) yet the resulting `lastUpdated` is 5 < 1000 — a successful
mutation that does not advance the clock. -/
theorem C9_counterexample :
    (itemPatch c9s (some "X") (some altPatch) (some 5) 999).2.isSome = true ∧
    luD (itemPatch c9s (some "X") (some altPatch) (some 5) 999).1 < luD c9s := by
  refine ⟨by decide, by decide⟩

/-- C9 witness: a patch whose mtime (6) is at least the prior clock (4)
does advance the clock. -/
theorem C9_witness :
    luD c9w ≤ luD (itemPatch c9w (some "X") (some altPatch) (some 6) 999).1 :=
  (C9_clock c9w).2.1 (some "X") (some altPatch) (some 6) 999 (by decide)

/-- C10 (confirmed): a coarse payload lacking `lastUpdated` (or carrying
0) compares as 0: it is accepted and installed wholesale iff the current
effective clock is 0, and against any state with a positive clock it is
silently rejected with the state unchanged. -/
theorem C10_absent_timestamp (st c : BoardState)
    (hc : c.lastUpdated = none ∨ c.lastUpdated = some 0) :
    (luD st = 0 → boardUpdate st c = (c, some c)) ∧
    (0 < luD st → boardUpdate st c = (st, none)) := by
  have hcz : luD c = 0 := by rcases hc with h | h <;> simp [luD, h]
  unfold boardUpdate
  rw [hcz]
  constructor
  · intro h; rw [if_pos (by omega)]
  · intro h; rw [if_neg (by omega)]

/-- C10 witness: a payload with no `lastUpdated` is accepted by a store
at clock 0 and rejected (state unchanged, no broadcast) by a store at
clock 8. -/
theorem C10_witness :
    boardUpdate c10cur c10cand = (c10cand, some c10cand) ∧
    boardUpdate c10cur2 c10cand = (c10cur2, none) :=
  ⟨(C10_absent_timestamp c10cur c10cand (Or.inl rfl)).1 (by decide),
   (C10_absent_timestamp c10cur2 c10cand (Or.inl rfl)).2 (by decide)⟩

end SJ
